/-
Verification of the NeMo repository slice: the streaming multi-class
classification-report accumulator (spec section 4.1) and the
`ASRConvCTCModel` convenience accessors
(`src/nemo/collections/asr/models/asrconvctcmodel.py`).

The accumulator's implementation file is not part of the provided sources
(only its unit test is), so its operations are modelled from the spec's
own operational description; the ASR model accessors are embedded directly
from the Python source.
-/
import Mathlib

set_option autoImplicit false

namespace NeMoSpec

/-! ## Classification report accumulator: data model -/

/-- Modelled from the spec: the error kinds of section 7 (the
implementation file `nemo/collections/nlp/metrics/classification_report.py`
is not among the provided sources, only its unit test is). -/
inductive CRError where
  | configurationError
  | shapeMismatchError
  | outOfRangeError
  | invalidModeError
  deriving DecidableEq

/-- Modelled from the spec: the accumulator state, three integer count
vectors of length `C` — true positives, false positives, false negatives
per class. -/
structure Counts where
  tp : List Nat
  fp : List Nat
  fn : List Nat
  deriving DecidableEq

/-- The freshly-constructed accumulator: all three vectors are length `C`,
all entries zero. -/
def zeroCounts (C : Nat) : Counts :=
  ⟨List.replicate C 0, List.replicate C 0, List.replicate C 0⟩

/-- Increment the entry at index `i` of a count vector; out-of-range
indices leave the vector unchanged (`ingest` validates indices first, so
this case never fires on validated input). -/
def incAt : List Nat → Nat → List Nat
  | [], _ => []
  | x :: xs, 0 => (x + 1) :: xs
  | x :: xs, n + 1 => x :: incAt xs n

/-- Modelled from the spec: one sample's confusion bookkeeping — if
`predictions[i] == targets[i] == c` increment `tp[c]`, else increment
`fp[predictions[i]]` and `fn[targets[i]]`. -/
def ingestStep (c : Counts) (p t : Nat) : Counts :=
  if p = t then { c with tp := incAt c.tp p }
  else { c with fp := incAt c.fp p, fn := incAt c.fn t }

/-- Fold one validated batch of (prediction, target) pairs into the
accumulator state. -/
def ingestCore (c : Counts) (l : List (Nat × Nat)) : Counts :=
  l.foldl (fun acc pt => ingestStep acc pt.1 pt.2) c

/-- Modelled from the spec: `ingest(predictions, targets)` — lengths must
match (`ShapeMismatchError` otherwise), all values must lie in `[0, C)`
(`OutOfRangeError` otherwise); validation happens before any count is
incremented, then every sample updates the counts. -/
def ingest (C : Nat) (c : Counts) (preds targets : List Nat) :
    Except CRError Counts :=
  if preds.length ≠ targets.length then .error .shapeMismatchError
  else if preds.any (fun v => C ≤ v) || targets.any (fun v => C ≤ v) then
    .error .outOfRangeError
  else .ok (ingestCore c (preds.zip targets))

/-- The accumulator state observed after an `ingest` call: the new state on
success, the unchanged previous state when the call was rejected. -/
def ingestState (C : Nat) (c : Counts) (preds targets : List Nat) : Counts :=
  match ingest C c preds targets with
  | .ok c' => c'
  | .error _ => c

/-- Vector-wise sum of two accumulator states (the merge of two
independently-accumulated accumulators, spec section 5). -/
def mergeCounts (a b : Counts) : Counts :=
  ⟨List.zipWith (· + ·) a.tp b.tp,
   List.zipWith (· + ·) a.fp b.fp,
   List.zipWith (· + ·) a.fn b.fn⟩

/-! ## Classification report accumulator: metric computation -/

/-- Modelled from the spec: division with the convention that a zero
denominator yields `0`. -/
def safeDiv (a b : ℚ) : ℚ := if b = 0 then 0 else a / b

/-- Modelled from the spec: per-class precision `tp / (tp + fp)`, `0` when
the denominator is `0`. -/
def precClass (t f : Nat) : ℚ := safeDiv (t : ℚ) ((t : ℚ) + (f : ℚ))

/-- Modelled from the spec: per-class recall `tp / (tp + fn)`, `0` when
the denominator is `0`. -/
def recClass (t f : Nat) : ℚ := safeDiv (t : ℚ) ((t : ℚ) + (f : ℚ))

/-- Modelled from the spec: per-class F1, the harmonic mean
`2*p*r/(p+r)`, `0` when `p + r == 0`. -/
def f1Of (p r : ℚ) : ℚ := if p + r = 0 then 0 else 2 * p * r / (p + r)

/-- Per-class precision vector. -/
def precList (tp fp : List Nat) : List ℚ := List.zipWith precClass tp fp

/-- Per-class recall vector. -/
def recList (tp fn : List Nat) : List ℚ := List.zipWith recClass tp fn

/-- Per-class F1 vector. -/
def f1List (tp fp fn : List Nat) : List ℚ :=
  List.zipWith f1Of (precList tp fp) (recList tp fn)

/-- Arithmetic mean of a list of rationals (`0` for the empty list). -/
def mean (l : List ℚ) : ℚ := safeDiv l.sum (l.length : ℚ)

/-- Micro-averaged (precision, recall, F1) from the pooled counts
`sum(tp)`, `sum(fp)`, `sum(fn)`. -/
def microPRF1 (tp fp fn : List Nat) : ℚ × ℚ × ℚ :=
  let p := precClass tp.sum fp.sum
  let r := recClass tp.sum fn.sum
  (p, r, f1Of p r)

/-- Per-class support `tp[c] + fn[c]` (spec glossary). -/
def support (tp fn : List Nat) : List Nat := List.zipWith (· + ·) tp fn

/-- Support-weighted average of a per-class metric vector, normalized by
total support; `0` for all metrics when the total support is `0`. -/
def weightedAvg (ws : List Nat) (xs : List ℚ) : ℚ :=
  safeDiv (List.zipWith (fun (w : Nat) (x : ℚ) => (w : ℚ) * x) ws xs).sum
    (ws.sum : ℚ)

/-- Modelled from the spec: `precision_recall_f1(tp, fn, fp, mode)` —
macro / micro / weighted averaging of per-class precision, recall and F1,
each scaled by `100`; any other mode fails with `InvalidModeError`. The
argument order `tp, fn, fp` follows the source test's call
`get_precision_recall_f1(tp, fn, fp, mode)`. -/
def get_precision_recall_f1 (tp fn fp : List Nat) (mode : String) :
    Except CRError (ℚ × ℚ × ℚ) :=
  if mode = "macro" then
    .ok (100 * mean (precList tp fp), 100 * mean (recList tp fn),
         100 * mean (f1List tp fp fn))
  else if mode = "micro" then
    let m := microPRF1 tp fp fn
    .ok (100 * m.1, 100 * m.2.1, 100 * m.2.2)
  else if mode = "weighted" then
    let ws := support tp fn
    .ok (100 * weightedAvg ws (precList tp fp),
         100 * weightedAvg ws (recList tp fn),
         100 * weightedAvg ws (f1List tp fp fn))
  else .error .invalidModeError

/-! ## ASRConvCTCModel (embedded from `asrconvctcmodel.py`) -/

/-- A neural module as far as the accessors under verification observe it:
its weight count. -/
structure NeuralModule where
  num_weights : Nat
  deriving DecidableEq

/-- The modules an `ASRConvCTCModel` instance records in
`__instantiate_modules`: preprocessor, optional spec-augmentation,
encoder, decoder. -/
structure ASRConvCTCModel where
  preprocessor : NeuralModule
  spec_augmentation : Option NeuralModule
  encoder : NeuralModule
  decoder : NeuralModule
  deriving DecidableEq

/-- `num_weights` property: `self._encoder.num_weights +
self._decoder.num_weights` (asrconvctcmodel.py lines 140-142). -/
def ASRConvCTCModel.num_weights (m : ASRConvCTCModel) : Nat :=
  m.encoder.num_weights + m.decoder.num_weights

/-- One entry of the pretrained-model registry. -/
structure PretrainedModelInfo where
  pretrained_model_name : String
  location : String
  description : String
  parameters : String
  deriving DecidableEq

/-- `list_pretrained_models` (asrconvctcmodel.py lines 144-180): the three
hard-coded registry entries, in source order. -/
def list_pretrained_models : List PretrainedModelInfo :=
  [ { pretrained_model_name := "QuartzNet15x5-En",
      location := "https://nemo-public.s3.us-east-2.amazonaws.com/nemo_0.11_models_test/QuartzNet15x5-En-Base.nemo",
      description := "The model is trained on ~3300 hours of publicly available data and achieves a WER of 3.91% on LibriSpeech dev-clean, and a WER of 10.58% on dev-other.",
      parameters := "" },
    { pretrained_model_name := "QuartzNet15x5-Zh",
      location := "https://nemo-public.s3.us-east-2.amazonaws.com/nemo_0.11_models_test/QuartzNet15x5-Zh-Base.nemo",
      description := "The model is trained on ai-shell2 mandarin chinese dataset.",
      parameters := "" },
    { pretrained_model_name := "JasperNet10x5-En",
      location := "https://nemo-public.s3.us-east-2.amazonaws.com/nemo_0.11_models_test/JasperNet10x5-En-Base.nemo",
      description := "The model achieves a WER of 3.46% on LibriSpeech dev-clean, 10.40% on dev-other, 3.69% on test-clean, and 10.49% on test-other.",
      parameters := "" } ]

/-- Character-list prefix test, used to model Python's `str.endswith`. -/
def charsPref : List Char → List Char → Bool
  | [], _ => true
  | _ :: _, [] => false
  | c :: cs, d :: ds => c == d && charsPref cs ds

/-- Python's `str.endswith(suffix)`: the decoded characters of `suf` are a
suffix of those of `s`. -/
def strEndsWith (s suf : String) : Bool :=
  charsPref suf.data.reverse s.data.reverse

/-- What `from_pretrained` resolves `model_info` to, before the optional
vocabulary swap (which happens only after a model was obtained). -/
inductive FromPretrainedOutcome where
  | restoredFromFile (path : String)
  | restoredFromCloud (location : String)
  deriving DecidableEq

/-- The exception `from_pretrained` can raise during resolution. -/
inductive FromPretrainedError where
  | fileNotFoundError
  deriving DecidableEq

/-- `from_pretrained` (asrconvctcmodel.py lines 182-211), resolution part:
a `model_info` ending in `".nemo"` is restored from that file; otherwise
the registry is scanned (the loop keeps the last matching location) and a
miss raises `FileNotFoundError` before any model is constructed. -/
def from_pretrained (model_info : String) :
    Except FromPretrainedError FromPretrainedOutcome :=
  if strEndsWith model_info ".nemo" then .ok (.restoredFromFile model_info)
  else
    let location_in_the_cloud := list_pretrained_models.foldl
      (fun acc info =>
        if info.pretrained_model_name = model_info then some info.location
        else acc) none
    match location_in_the_cloud with
    | none => .error .fileNotFoundError
    | some loc => .ok (.restoredFromCloud loc)

/-- Decidable equality for `Except` results, so concrete runs of the
embedded operations can be checked by evaluation. -/
instance instDecEqExcept {ε α : Type} [DecidableEq ε] [DecidableEq α] :
    DecidableEq (Except ε α) := fun a b =>
  match a, b with
  | .ok x, .ok y =>
      decidable_of_iff (x = y) ⟨fun h => by rw [h], fun h => by cases h; rfl⟩
  | .ok _, .error _ => isFalse (fun h => Except.noConfusion h)
  | .error _, .ok _ => isFalse (fun h => Except.noConfusion h)
  | .error x, .error y =>
      decidable_of_iff (x = y) ⟨fun h => by rw [h], fun h => by cases h; rfl⟩

end NeMoSpec

namespace NeMoSpec

theorem incAt_length (l : List Nat) (i : Nat) : (incAt l i).length = l.length := by
  induction l generalizing i with
  | nil => rfl
  | cons x xs ih =>
    cases i with
    | zero => rfl
    | succ n => simp [incAt, ih]

theorem incAt_sum (l : List Nat) (i : Nat) (h : i < l.length) :
    (incAt l i).sum = l.sum + 1 := by
  induction l generalizing i with
  | nil => simp at h
  | cons x xs ih =>
    cases i with
    | zero => simp [incAt]; omega
    | succ n =>
      have hrec := ih n (by simpa using h)
      simp [incAt, hrec]; omega

theorem ingestCore_nil (c : Counts) : ingestCore c [] = c := rfl

theorem ingestCore_cons (c : Counts) (pt : Nat × Nat) (rest : List (Nat × Nat)) :
    ingestCore c (pt :: rest) = ingestCore (ingestStep c pt.1 pt.2) rest := rfl

theorem ingestStep_lengths (c : Counts) (p t : Nat) :
    (ingestStep c p t).tp.length = c.tp.length ∧
    (ingestStep c p t).fp.length = c.fp.length ∧
    (ingestStep c p t).fn.length = c.fn.length := by
  unfold ingestStep; split <;> simp [incAt_length]

theorem ingestCore_lengths (l : List (Nat × Nat)) (c : Counts) :
    (ingestCore c l).tp.length = c.tp.length ∧
    (ingestCore c l).fp.length = c.fp.length ∧
    (ingestCore c l).fn.length = c.fn.length := by
  induction l generalizing c with
  | nil => exact ⟨rfl, rfl, rfl⟩
  | cons pt rest ih =>
    have hs := ingestStep_lengths c pt.1 pt.2
    have hr := ih (ingestStep c pt.1 pt.2)
    rw [ingestCore_cons]
    exact ⟨hr.1.trans hs.1, hr.2.1.trans hs.2.1, hr.2.2.trans hs.2.2⟩

theorem ingestStep_sums (c : Counts) (p t : Nat)
    (hp : p < c.tp.length) (hp' : p < c.fp.length) (ht : t < c.fn.length) :
    (ingestStep c p t).tp.sum + (ingestStep c p t).fn.sum = c.tp.sum + c.fn.sum + 1 ∧
    (ingestStep c p t).tp.sum + (ingestStep c p t).fp.sum = c.tp.sum + c.fp.sum + 1 := by
  unfold ingestStep; split
  · simp [incAt_sum c.tp p hp]; omega
  · simp [incAt_sum c.fn t ht, incAt_sum c.fp p hp']; omega

theorem ingestCore_sums (C : Nat) (l : List (Nat × Nat)) (c : Counts)
    (htp : c.tp.length = C) (hfp : c.fp.length = C) (hfn : c.fn.length = C)
    (hl : ∀ pr ∈ l, pr.1 < C ∧ pr.2 < C) :
    (ingestCore c l).tp.sum + (ingestCore c l).fn.sum
      = c.tp.sum + c.fn.sum + l.length ∧
    (ingestCore c l).tp.sum + (ingestCore c l).fp.sum
      = c.tp.sum + c.fp.sum + l.length := by
  induction l generalizing c with
  | nil => simp [ingestCore_nil]
  | cons pt rest ih =>
    obtain ⟨hp, ht⟩ := hl pt (List.mem_cons_self _ _)
    have hlen := ingestStep_lengths c pt.1 pt.2
    have hstep := ingestStep_sums c pt.1 pt.2
      (htp ▸ hp) (hfp ▸ hp) (hfn ▸ ht)
    have hrec := ih (ingestStep c pt.1 pt.2)
      (hlen.1.trans htp) (hlen.2.1.trans hfp) (hlen.2.2.trans hfn)
      (fun pr hpr => hl pr (List.mem_cons_of_mem _ hpr))
    rw [ingestCore_cons]
    constructor
    · rw [hrec.1, hstep.1]; simp; omega
    · rw [hrec.2, hstep.2]; simp; omega

end NeMoSpec

namespace NeMoSpec

theorem ingest_ok (C : Nat) (c s : Counts) (preds targets : List Nat)
    (h : ingest C c preds targets = .ok s) :
    preds.length = targets.length ∧ (∀ v ∈ preds, v < C) ∧
    (∀ v ∈ targets, v < C) ∧ s = ingestCore c (preds.zip targets) := by
  unfold ingest at h
  split_ifs at h with h1 h2
  rw [not_not] at h1
  simp only [Bool.or_eq_true, List.any_eq_true, decide_eq_true_eq, not_or,
    not_exists, not_and, not_le] at h2
  exact ⟨h1, fun v hv => h2.1 v hv, fun v hv => h2.2 v hv,
    (Except.ok.inj h).symm⟩

theorem zip_mem_lt (C : Nat) (preds targets : List Nat)
    (hp : ∀ v ∈ preds, v < C) (ht : ∀ v ∈ targets, v < C) :
    ∀ pr ∈ preds.zip targets, pr.1 < C ∧ pr.2 < C := by
  intro pr hpr
  obtain ⟨h1, h2⟩ := List.of_mem_zip hpr
  exact ⟨hp _ h1, ht _ h2⟩

theorem zeroCounts_lengths (C : Nat) :
    (zeroCounts C).tp.length = C ∧ (zeroCounts C).fp.length = C ∧
    (zeroCounts C).fn.length = C := by
  simp [zeroCounts]

theorem zeroCounts_sums (C : Nat) :
    (zeroCounts C).tp.sum = 0 ∧ (zeroCounts C).fp.sum = 0 ∧
    (zeroCounts C).fn.sum = 0 := by
  simp [zeroCounts, List.sum_replicate]

end NeMoSpec

namespace NeMoSpec

theorem incAt_zipWith_add (x y : List Nat) (h : x.length = y.length) (i : Nat) :
    incAt (List.zipWith (· + ·) x y) i = List.zipWith (· + ·) x (incAt y i) := by
  induction x generalizing y i with
  | nil =>
    cases y with
    | nil => rfl
    | cons b ys => simp at h
  | cons a xs ih =>
    cases y with
    | nil => simp at h
    | cons b ys =>
      cases i with
      | zero => simp [incAt]; omega
      | succ n => simp [incAt, ih ys (by simpa using h) n]

theorem mergeCounts_step (a b : Counts) (htp : a.tp.length = b.tp.length)
    (hfp : a.fp.length = b.fp.length) (hfn : a.fn.length = b.fn.length)
    (p t : Nat) :
    ingestStep (mergeCounts a b) p t = mergeCounts a (ingestStep b p t) := by
  unfold ingestStep mergeCounts
  split <;> simp [incAt_zipWith_add _ _ htp, incAt_zipWith_add _ _ hfp,
    incAt_zipWith_add _ _ hfn]

theorem mergeCounts_ingestCore (l : List (Nat × Nat)) (a b : Counts)
    (htp : a.tp.length = b.tp.length) (hfp : a.fp.length = b.fp.length)
    (hfn : a.fn.length = b.fn.length) :
    ingestCore (mergeCounts a b) l = mergeCounts a (ingestCore b l) := by
  induction l generalizing b with
  | nil => rfl
  | cons pt rest ih =>
    have hlen := ingestStep_lengths b pt.1 pt.2
    rw [ingestCore_cons, ingestCore_cons, mergeCounts_step a b htp hfp hfn,
      ih (ingestStep b pt.1 pt.2) (htp.trans hlen.1.symm)
        (hfp.trans hlen.2.1.symm) (hfn.trans hlen.2.2.symm)]

theorem zipWith_add_replicate (l : List Nat) :
    List.zipWith (· + ·) l (List.replicate l.length 0) = l := by
  induction l with
  | nil => rfl
  | cons x xs ih => simp [List.replicate_succ, ih]

theorem mergeCounts_zeroCounts (C : Nat) (a : Counts)
    (htp : a.tp.length = C) (hfp : a.fp.length = C) (hfn : a.fn.length = C) :
    mergeCounts a (zeroCounts C) = a := by
  have h1 : List.zipWith (· + ·) a.tp (List.replicate C 0) = a.tp := by
    rw [← htp]; exact zipWith_add_replicate a.tp
  have h2 : List.zipWith (· + ·) a.fp (List.replicate C 0) = a.fp := by
    rw [← hfp]; exact zipWith_add_replicate a.fp
  have h3 : List.zipWith (· + ·) a.fn (List.replicate C 0) = a.fn := by
    rw [← hfn]; exact zipWith_add_replicate a.fn
  cases a
  simp_all [mergeCounts, zeroCounts]

theorem zipWith_add_assoc (x y z : List Nat) :
    List.zipWith (· + ·) (List.zipWith (· + ·) x y) z
      = List.zipWith (· + ·) x (List.zipWith (· + ·) y z) := by
  induction x generalizing y z with
  | nil => rfl
  | cons a xs ih =>
    cases y with
    | nil => rfl
    | cons b ys =>
      cases z with
      | nil => rfl
      | cons cz zs => simp [ih, Nat.add_assoc]

theorem mergeCounts_comm (a b : Counts) : mergeCounts a b = mergeCounts b a := by
  unfold mergeCounts
  rw [List.zipWith_comm_of_comm _ Nat.add_comm a.tp b.tp,
    List.zipWith_comm_of_comm _ Nat.add_comm a.fp b.fp,
    List.zipWith_comm_of_comm _ Nat.add_comm a.fn b.fn]

theorem mergeCounts_assoc (a b c : Counts) :
    mergeCounts (mergeCounts a b) c = mergeCounts a (mergeCounts b c) := by
  unfold mergeCounts
  simp [zipWith_add_assoc]

end NeMoSpec

namespace NeMoSpec

theorem safeDiv_zero_num (b : ℚ) : safeDiv 0 b = 0 := by
  unfold safeDiv; split <;> simp

theorem safeDiv_of_ne (a b : ℚ) (h : b ≠ 0) : safeDiv a b = a / b := by
  unfold safeDiv; rw [if_neg h]

theorem precClass_denom_zero (t f : Nat) (h : t + f = 0) : precClass t f = 0 := by
  obtain ⟨rfl, rfl⟩ : t = 0 ∧ f = 0 := by omega
  simp [precClass, safeDiv]

theorem recClass_denom_zero (t f : Nat) (h : t + f = 0) : recClass t f = 0 := by
  obtain ⟨rfl, rfl⟩ : t = 0 ∧ f = 0 := by omega
  simp [recClass, safeDiv]

theorem f1Of_denom_zero (p r : ℚ) (h : p + r = 0) : f1Of p r = 0 := by
  simp [f1Of, h]

theorem f1_pooled (T F G : ℚ) (hT : 0 ≤ T) (hF : 0 ≤ F) (hG : 0 ≤ G) :
    f1Of (safeDiv T (T + F)) (safeDiv T (T + G))
      = 2 * T / (2 * T + F + G) := by
  rcases eq_or_lt_of_le hT with h0 | hpos
  · rw [← h0, safeDiv_zero_num, safeDiv_zero_num, f1Of_denom_zero 0 0 (by ring)]
    simp
  · have hTF : (0:ℚ) < T + F := by linarith
    have hTG : (0:ℚ) < T + G := by linarith
    rw [safeDiv_of_ne _ _ hTF.ne', safeDiv_of_ne _ _ hTG.ne']
    have hp : (0:ℚ) < T / (T + F) := div_pos hpos hTF
    have hr : (0:ℚ) < T / (T + G) := div_pos hpos hTG
    have hpr : T / (T + F) + T / (T + G) ≠ 0 := by positivity
    have hden : (2:ℚ) * T + F + G ≠ 0 := by positivity
    unfold f1Of
    rw [if_neg hpr]
    field_simp
    ring

end NeMoSpec

namespace NeMoSpec

/-- C8: calling `ingest` with an empty batch (two empty sequences) succeeds
and leaves the accumulator's `tp`, `fp` and `fn` vectors unchanged, in
every state — an empty ingest is a no-op. -/
theorem c8_empty_batch_noop : ∀ (C : Nat) (c : Counts),
    ingest C c [] [] = .ok c := by
  intro C c
  rfl

/-- C9: `num_weights` of an `ASRConvCTCModel` is exactly the sum of the
encoder's and the decoder's weight counts, and replacing the preprocessor
or the spec-augmentation module leaves it unchanged (they are excluded
from the total). -/
theorem c9_num_weights_encoder_decoder : ∀ (m : ASRConvCTCModel),
    m.num_weights = m.encoder.num_weights + m.decoder.num_weights ∧
    ∀ (pre : NeuralModule) (aug : Option NeuralModule),
      ASRConvCTCModel.num_weights
        { m with preprocessor := pre, spec_augmentation := aug }
        = m.num_weights := by
  intro m
  exact ⟨rfl, fun _ _ => rfl⟩

/-- C6: `precision_recall_f1` with a mode outside
{"macro", "micro", "weighted"} fails with `InvalidModeError` instead of
defaulting to one of the three averaging schemes. -/
theorem c6_invalid_mode_error :
    ∀ (tp fn fp : List Nat) (mode : String),
      mode ≠ "macro" → mode ≠ "micro" → mode ≠ "weighted" →
      get_precision_recall_f1 tp fn fp mode = .error .invalidModeError := by
  intro tp fn fp mode h1 h2 h3
  simp [get_precision_recall_f1, h1, h2, h3]

theorem c6_invalid_mode_error_witness :
    (("harmonic" : String) ≠ "macro" ∧ ("harmonic" : String) ≠ "micro" ∧
      ("harmonic" : String) ≠ "weighted") ∧
    get_precision_recall_f1 [1, 0] [0, 1] [1, 1] "harmonic"
      = .error .invalidModeError :=
  ⟨by decide, c6_invalid_mode_error [1, 0] [0, 1] [1, 1] "harmonic"
    (by decide) (by decide) (by decide)⟩

/-- C10: `from_pretrained` with a `model_info` that neither ends in
`".nemo"` nor matches any `pretrained_model_name` of
`list_pretrained_models` raises `FileNotFoundError` (no model instance is
produced). -/
theorem c10_from_pretrained_not_found :
    ∀ model_info : String,
      strEndsWith model_info ".nemo" = false →
      (∀ info ∈ list_pretrained_models,
        info.pretrained_model_name ≠ model_info) →
      from_pretrained model_info = .error .fileNotFoundError := by
  intro s hsuf hnames
  simp only [list_pretrained_models, List.mem_cons, List.not_mem_nil,
    or_false, forall_eq_or_imp, forall_eq] at hnames
  obtain ⟨h1, h2, h3⟩ := hnames
  simp [from_pretrained, list_pretrained_models, hsuf, h1, h2, h3]

theorem c10_from_pretrained_not_found_witness :
    (strEndsWith "NotARealModel" ".nemo" = false ∧
      ∀ info ∈ list_pretrained_models,
        info.pretrained_model_name ≠ "NotARealModel") ∧
    from_pretrained "NotARealModel" = .error .fileNotFoundError :=
  ⟨⟨by decide, by decide⟩,
    c10_from_pretrained_not_found "NotARealModel" (by decide) (by decide)⟩

end NeMoSpec

namespace NeMoSpec

/-- C7: a rejected `ingest` call leaves the accumulator unchanged
(all-or-nothing per batch): under any rejection cause — mismatched batch
lengths or a value outside `[0, C)` — the observed post-state equals the
pre-state, mismatched lengths are reported as `ShapeMismatchError`, and
(with matching lengths) an out-of-range value as `OutOfRangeError`. -/
theorem c7_rejected_ingest_no_mutation :
    ∀ (C : Nat) (c : Counts) (preds targets : List Nat),
      (preds.length ≠ targets.length ∨ ∃ v ∈ preds ++ targets, C ≤ v) →
      ingestState C c preds targets = c ∧
      (preds.length ≠ targets.length →
        ingest C c preds targets = .error .shapeMismatchError) ∧
      (preds.length = targets.length →
        ingest C c preds targets = .error .outOfRangeError) := by
  intro C c preds targets hbad
  by_cases hlen : preds.length = targets.length
  · have hout : (preds.any (fun v => C ≤ v) || targets.any (fun v => C ≤ v))
        = true := by
      rcases hbad with hne | ⟨v, hv, hCv⟩
      · exact absurd hlen hne
      · rcases List.mem_append.mp hv with hvp | hvt
        · simp only [Bool.or_eq_true, List.any_eq_true, decide_eq_true_eq]
          exact Or.inl ⟨v, hvp, hCv⟩
        · simp only [Bool.or_eq_true, List.any_eq_true, decide_eq_true_eq]
          exact Or.inr ⟨v, hvt, hCv⟩
    have herr : ingest C c preds targets = .error .outOfRangeError := by
      unfold ingest
      rw [if_neg (not_not_intro hlen), if_pos hout]
    refine ⟨?_, fun hne => absurd hlen hne, fun _ => herr⟩
    unfold ingestState
    rw [herr]
  · have herr : ingest C c preds targets = .error .shapeMismatchError := by
      unfold ingest
      rw [if_pos hlen]
    refine ⟨?_, fun _ => herr, fun heq => absurd heq hlen⟩
    unfold ingestState
    rw [herr]

theorem c7_rejected_ingest_no_mutation_witness :
    (([0, 1] : List Nat).length ≠ ([0] : List Nat).length ∨
      ∃ v ∈ ([0, 1] ++ [0] : List Nat), 2 ≤ v) ∧
    (ingestState 2 (zeroCounts 2) [0, 1] [0] = zeroCounts 2 ∧
      (([0, 1] : List Nat).length ≠ ([0] : List Nat).length →
        ingest 2 (zeroCounts 2) [0, 1] [0] = .error .shapeMismatchError) ∧
      (([0, 1] : List Nat).length = ([0] : List Nat).length →
        ingest 2 (zeroCounts 2) [0, 1] [0] = .error .outOfRangeError)) :=
  ⟨by decide, c7_rejected_ingest_no_mutation 2 (zeroCounts 2) [0, 1] [0]
    (by decide)⟩

end NeMoSpec

namespace NeMoSpec

/-- C3: micro mode computes precision, recall and F1 from the pooled counts
`sum(tp)`, `sum(fp)`, `sum(fn)`, and the micro-F1 component equals
`2*sum(tp) / (2*sum(tp) + sum(fp) + sum(fn))` exactly (before the scaling
by `100`). -/
theorem c3_micro_f1_pooled_formula :
    ∀ tp fn fp : List Nat,
      (microPRF1 tp fp fn).2.2
        = 2 * (tp.sum : ℚ)
          / (2 * (tp.sum : ℚ) + (fp.sum : ℚ) + (fn.sum : ℚ)) ∧
      get_precision_recall_f1 tp fn fp "micro" =
        .ok (100 * precClass tp.sum fp.sum, 100 * recClass tp.sum fn.sum,
          100 * (2 * (tp.sum : ℚ)
            / (2 * (tp.sum : ℚ) + (fp.sum : ℚ) + (fn.sum : ℚ)))) := by
  intro tp fn fp
  have key : (microPRF1 tp fp fn).2.2
      = 2 * (tp.sum : ℚ)
        / (2 * (tp.sum : ℚ) + (fp.sum : ℚ) + (fn.sum : ℚ)) := by
    show f1Of (precClass tp.sum fp.sum) (recClass tp.sum fn.sum) = _
    unfold precClass recClass
    exact f1_pooled (tp.sum : ℚ) (fp.sum : ℚ) (fn.sum : ℚ)
      (Nat.cast_nonneg _) (Nat.cast_nonneg _) (Nat.cast_nonneg _)
  refine ⟨key, ?_⟩
  simp only [get_precision_recall_f1]
  rw [if_neg (by decide)]
  rw [if_pos trivial]
  rw [← key]
  rfl

end NeMoSpec

namespace NeMoSpec

/-- C1, counterexample: on the concrete batch the accumulator produces
`fp = [1,2,1]` and `fn = [2,2,0]` (sample 5 predicts class 2 for target
class 1, so `fp[2]` and `fn[1]` are incremented), not the claimed
`fp = [1,2,0]`, `fn = [2,1,0]`. -/
theorem c1_counterexample :
    ingest 3 (zeroCounts 3) [0, 1, 1, 1, 2, 2, 0] [1, 0, 0, 1, 2, 1, 0]
      = .ok ⟨[1, 1, 1], [1, 2, 1], [2, 2, 0]⟩ ∧
    (⟨[1, 1, 1], [1, 2, 1], [2, 2, 0]⟩ : Counts)
      ≠ ⟨[1, 1, 1], [1, 2, 0], [2, 1, 0]⟩ := by
  constructor
  · decide
  · decide

/-- C1, amended: on the concrete batch (`num_classes = 3`,
`predictions = [0,1,1,1,2,2,0]`, `targets = [1,0,0,1,2,1,0]`) ingest
produces `tp = [1,1,1]`, `fp = [1,2,1]`, `fn = [2,2,0]`, and the macro,
micro and weighted precision/recall/F1 computed from those counts are
`(400/9, 500/9, 140/3)`, `(300/7, 300/7, 300/7)` and
`(300/7, 300/7, 860/21)` percentage points — which round to `(44,56,47)`,
`(43,43,43)` and `(43,43,41)`, the values of the standard multiclass
formulas for the respective averaging schemes. -/
theorem c1_concrete_batch_counts_and_metrics :
    ingest 3 (zeroCounts 3) [0, 1, 1, 1, 2, 2, 0] [1, 0, 0, 1, 2, 1, 0]
      = .ok ⟨[1, 1, 1], [1, 2, 1], [2, 2, 0]⟩ ∧
    get_precision_recall_f1 [1, 1, 1] [2, 2, 0] [1, 2, 1] "macro"
      = .ok (400 / 9, 500 / 9, 140 / 3) ∧
    get_precision_recall_f1 [1, 1, 1] [2, 2, 0] [1, 2, 1] "micro"
      = .ok (300 / 7, 300 / 7, 300 / 7) ∧
    get_precision_recall_f1 [1, 1, 1] [2, 2, 0] [1, 2, 1] "weighted"
      = .ok (300 / 7, 300 / 7, 860 / 21) ∧
    (round ((400 : ℚ) / 9) = 44 ∧ round ((500 : ℚ) / 9) = 56 ∧
      round ((140 : ℚ) / 3) = 47) ∧
    (round ((300 : ℚ) / 7) = 43) ∧
    (round ((860 : ℚ) / 21) = 41) := by
  refine ⟨by decide, ?_, ?_, ?_, ⟨?_, ?_, ?_⟩, ?_, ?_⟩
  · norm_num [get_precision_recall_f1, mean, precList, recList, f1List,
      precClass, recClass, f1Of, safeDiv]
  · simp only [get_precision_recall_f1]
    rw [if_neg (by decide)]
    norm_num [microPRF1, precClass, recClass, f1Of, safeDiv]
  · simp only [get_precision_recall_f1]
    rw [if_neg (by decide), if_neg (by decide)]
    norm_num [weightedAvg, support, precList, recList, f1List, precClass,
      recClass, f1Of, safeDiv]
  · norm_num [round_eq]
  · norm_num [round_eq]
  · norm_num [round_eq]
  · norm_num [round_eq]
  · norm_num [round_eq]

end NeMoSpec

namespace NeMoSpec

theorem fresh_ingest_sums (C : Nat) (preds targets : List Nat) (s : Counts)
    (h : ingest C (zeroCounts C) preds targets = .ok s) :
    s.tp.sum + s.fn.sum = preds.length ∧
    s.tp.sum + s.fp.sum = preds.length := by
  obtain ⟨hlen, hp, ht, hs⟩ := ingest_ok C (zeroCounts C) s preds targets h
  subst hs
  have hz := zeroCounts_lengths C
  have hzs := zeroCounts_sums C
  have hsums := ingestCore_sums C (preds.zip targets) (zeroCounts C)
    hz.1 hz.2.1 hz.2.2 (zip_mem_lt C preds targets hp ht)
  have hziplen : (preds.zip targets).length = preds.length := by
    rw [List.length_zip, hlen, Nat.min_self]
  constructor
  · rw [hsums.1, hzs.1, hzs.2.2, hziplen]; omega
  · rw [hsums.2, hzs.1, hzs.2.1, hziplen]; omega


/-- C2, counterexample: the claim asserts there is some valid batch,
ingested from a fresh accumulator, for which
`sum(tp) + sum(fp) ≠ len(predictions)`; in fact no such batch exists —
every prediction is counted exactly once as a true positive or a false
positive, so the pooled identity always holds. -/
theorem c2_counterexample :
    (∃ (C : Nat) (preds targets : List Nat) (s : Counts),
        ingest C (zeroCounts C) preds targets = Except.ok s ∧
        s.tp.sum + s.fp.sum ≠ preds.length) = False := by
  apply eq_false
  rintro ⟨C, preds, targets, s, hok, hne⟩
  exact hne (fresh_ingest_sums C preds targets s hok).2

/-- C2, amended: for every valid batch ingested from a freshly-constructed
accumulator, `sum(tp) + sum(fn) = len(predictions)`,
`sum(tp) ≤ len(predictions)`, and also
`sum(tp) + sum(fp) = len(predictions)` always holds (contrary to the
claim, the latter identity is valid for every batch, since every mismatch
increments exactly one `fp` entry). -/
theorem c2_fresh_batch_count_identities :
    ∀ (C : Nat) (preds targets : List Nat) (s : Counts),
      ingest C (zeroCounts C) preds targets = .ok s →
      s.tp.sum + s.fn.sum = preds.length ∧
      s.tp.sum ≤ preds.length ∧
      s.tp.sum + s.fp.sum = preds.length := by
  intro C preds targets s h
  have hsums := fresh_ingest_sums C preds targets s h
  exact ⟨hsums.1, by omega, hsums.2⟩

theorem c2_fresh_batch_count_identities_witness :
    ingest 3 (zeroCounts 3) [0, 1, 1, 1, 2, 2, 0] [1, 0, 0, 1, 2, 1, 0]
      = .ok ⟨[1, 1, 1], [1, 2, 1], [2, 2, 0]⟩ ∧
    ((⟨[1, 1, 1], [1, 2, 1], [2, 2, 0]⟩ : Counts).tp.sum
        + (⟨[1, 1, 1], [1, 2, 1], [2, 2, 0]⟩ : Counts).fn.sum
        = ([0, 1, 1, 1, 2, 2, 0] : List Nat).length ∧
      (⟨[1, 1, 1], [1, 2, 1], [2, 2, 0]⟩ : Counts).tp.sum
        ≤ ([0, 1, 1, 1, 2, 2, 0] : List Nat).length ∧
      (⟨[1, 1, 1], [1, 2, 1], [2, 2, 0]⟩ : Counts).tp.sum
        + (⟨[1, 1, 1], [1, 2, 1], [2, 2, 0]⟩ : Counts).fp.sum
        = ([0, 1, 1, 1, 2, 2, 0] : List Nat).length) :=
  ⟨by decide, c2_fresh_batch_count_identities 3 [0, 1, 1, 1, 2, 2, 0]
    [1, 0, 0, 1, 2, 1, 0] ⟨[1, 1, 1], [1, 2, 1], [2, 2, 0]⟩ (by decide)⟩

end NeMoSpec

namespace NeMoSpec

/-- C4: merging two independently-accumulated accumulators (vector-wise
sum of `tp`/`fp`/`fn`) equals ingesting both batches sequentially into one
accumulator, metrics computed from the merged counts coincide with the
sequential ones for every mode, and the merge is commutative and
associative. -/
theorem c4_merge_matches_sequential :
    ∀ (C : Nat) (p1 t1 p2 t2 : List Nat) (s1 s2 s12 : Counts),
      ingest C (zeroCounts C) p1 t1 = .ok s1 →
      ingest C (zeroCounts C) p2 t2 = .ok s2 →
      ingest C s1 p2 t2 = .ok s12 →
      (mergeCounts s1 s2 = s12 ∧
        ∀ mode : String,
          get_precision_recall_f1 (mergeCounts s1 s2).tp
              (mergeCounts s1 s2).fn (mergeCounts s1 s2).fp mode
            = get_precision_recall_f1 s12.tp s12.fn s12.fp mode) ∧
      (∀ a b : Counts, mergeCounts a b = mergeCounts b a) ∧
      (∀ a b c : Counts,
        mergeCounts (mergeCounts a b) c = mergeCounts a (mergeCounts b c)) := by
  intro C p1 t1 p2 t2 s1 s2 s12 h1 h2 h12
  obtain ⟨-, -, -, hs1⟩ := ingest_ok C (zeroCounts C) s1 p1 t1 h1
  obtain ⟨-, -, -, hs2⟩ := ingest_ok C (zeroCounts C) s2 p2 t2 h2
  obtain ⟨-, -, -, hs12⟩ := ingest_ok C s1 s12 p2 t2 h12
  have hz := zeroCounts_lengths C
  have hl1 := ingestCore_lengths (p1.zip t1) (zeroCounts C)
  have htp : s1.tp.length = C := by rw [hs1]; exact hl1.1.trans hz.1
  have hfp : s1.fp.length = C := by rw [hs1]; exact hl1.2.1.trans hz.2.1
  have hfn : s1.fn.length = C := by rw [hs1]; exact hl1.2.2.trans hz.2.2
  have hmz : mergeCounts s1 (zeroCounts C) = s1 :=
    mergeCounts_zeroCounts C s1 htp hfp hfn
  have key : mergeCounts s1 s2 = s12 := by
    calc mergeCounts s1 s2
        = mergeCounts s1 (ingestCore (zeroCounts C) (p2.zip t2)) := by
          rw [← hs2]
      _ = ingestCore (mergeCounts s1 (zeroCounts C)) (p2.zip t2) :=
          (mergeCounts_ingestCore (p2.zip t2) s1 (zeroCounts C)
            (htp.trans hz.1.symm) (hfp.trans hz.2.1.symm)
            (hfn.trans hz.2.2.symm)).symm
      _ = ingestCore s1 (p2.zip t2) := by rw [hmz]
      _ = s12 := hs12.symm
  exact ⟨⟨key, fun mode => by rw [key]⟩, mergeCounts_comm, mergeCounts_assoc⟩

theorem c4_merge_matches_sequential_witness :
    (ingest 2 (zeroCounts 2) [0] [0]
        = .ok (⟨[1, 0], [0, 0], [0, 0]⟩ : Counts) ∧
      ingest 2 (zeroCounts 2) [1] [0]
        = .ok (⟨[0, 0], [0, 1], [1, 0]⟩ : Counts) ∧
      ingest 2 (⟨[1, 0], [0, 0], [0, 0]⟩ : Counts) [1] [0]
        = .ok (⟨[1, 0], [0, 1], [1, 0]⟩ : Counts)) ∧
    ((mergeCounts ⟨[1, 0], [0, 0], [0, 0]⟩ ⟨[0, 0], [0, 1], [1, 0]⟩
        = (⟨[1, 0], [0, 1], [1, 0]⟩ : Counts) ∧
      ∀ mode : String,
        get_precision_recall_f1
            (mergeCounts ⟨[1, 0], [0, 0], [0, 0]⟩ ⟨[0, 0], [0, 1], [1, 0]⟩).tp
            (mergeCounts ⟨[1, 0], [0, 0], [0, 0]⟩ ⟨[0, 0], [0, 1], [1, 0]⟩).fn
            (mergeCounts ⟨[1, 0], [0, 0], [0, 0]⟩ ⟨[0, 0], [0, 1], [1, 0]⟩).fp
            mode
          = get_precision_recall_f1 (⟨[1, 0], [0, 1], [1, 0]⟩ : Counts).tp
              (⟨[1, 0], [0, 1], [1, 0]⟩ : Counts).fn
              (⟨[1, 0], [0, 1], [1, 0]⟩ : Counts).fp mode) ∧
      (∀ a b : Counts, mergeCounts a b = mergeCounts b a) ∧
      (∀ a b c : Counts,
        mergeCounts (mergeCounts a b) c = mergeCounts a (mergeCounts b c))) :=
  ⟨⟨by decide, by decide, by decide⟩,
    c4_merge_matches_sequential 2 [0] [0] [1] [0]
      ⟨[1, 0], [0, 0], [0, 0]⟩ ⟨[0, 0], [0, 1], [1, 0]⟩
      ⟨[1, 0], [0, 1], [1, 0]⟩ (by decide) (by decide) (by decide)⟩

end NeMoSpec

namespace NeMoSpec

theorem mean_append_zero (xs : List ℚ) :
    mean (xs ++ [0]) = xs.sum / ((xs.length : ℚ) + 1) := by
  unfold mean
  have hsum : (xs ++ [0]).sum = xs.sum := by simp
  have hlen : (((xs ++ [0]).length : ℕ) : ℚ) = (xs.length : ℚ) + 1 := by
    simp
  rw [hsum, hlen, safeDiv_of_ne]
  positivity

/-- C5: per-class precision and recall are `0` on a zero denominator,
per-class F1 is `0` when `p + r = 0`, and macro averaging is the
unweighted mean over all `C` classes — appending a zero-support class
(`tp = fp = fn = 0`) contributes a `0` term to the numerator while the
mean is still divided by the enlarged class count `C + 1`, i.e. the class
is not excluded. -/
theorem c5_zero_conventions_macro_mean :
    ∀ (tp fp fn : List Nat) (t f : Nat) (p r : ℚ),
      tp.length = fp.length → tp.length = fn.length →
      ((t + f = 0 → precClass t f = 0) ∧
       (t + f = 0 → recClass t f = 0) ∧
       (p + r = 0 → f1Of p r = 0) ∧
       get_precision_recall_f1 (tp ++ [0]) (fn ++ [0]) (fp ++ [0]) "macro"
         = .ok (100 * ((precList tp fp).sum / ((tp.length : ℚ) + 1)),
                100 * ((recList tp fn).sum / ((tp.length : ℚ) + 1)),
                100 * ((f1List tp fp fn).sum / ((tp.length : ℚ) + 1)))) := by
  intro tp fp fn t f p r hfp hfn
  refine ⟨precClass_denom_zero t f, recClass_denom_zero t f,
    f1Of_denom_zero p r, ?_⟩
  have hpl : (precList tp fp).length = tp.length := by
    unfold precList
    rw [List.length_zipWith, ← hfp, Nat.min_self]
  have hrl : (recList tp fn).length = tp.length := by
    unfold recList
    rw [List.length_zipWith, ← hfn, Nat.min_self]
  have hfl : (f1List tp fp fn).length = tp.length := by
    unfold f1List
    rw [List.length_zipWith, hpl, hrl, Nat.min_self]
  have hpf : precList (tp ++ [0]) (fp ++ [0]) = precList tp fp ++ [0] := by
    unfold precList
    rw [List.zipWith_append _ _ _ _ _ hfp]
    simp [precClass, safeDiv]
  have hrf : recList (tp ++ [0]) (fn ++ [0]) = recList tp fn ++ [0] := by
    unfold recList
    rw [List.zipWith_append _ _ _ _ _ hfn]
    simp [recClass, safeDiv]
  have hff : f1List (tp ++ [0]) (fp ++ [0]) (fn ++ [0])
      = f1List tp fp fn ++ [0] := by
    unfold f1List
    rw [hpf, hrf, List.zipWith_append _ _ _ _ _ (hpl.trans hrl.symm)]
    simp [f1Of]
  simp only [get_precision_recall_f1]
  rw [if_pos trivial, hpf, hrf, hff, mean_append_zero, mean_append_zero,
    mean_append_zero, hpl, hrl, hfl]

theorem c5_zero_conventions_macro_mean_witness :
    (([1] : List Nat).length = ([0] : List Nat).length ∧
      ([1] : List Nat).length = ([0] : List Nat).length) ∧
    ((0 + 0 = 0 → precClass 0 0 = 0) ∧
     (0 + 0 = 0 → recClass 0 0 = 0) ∧
     ((0 : ℚ) + 0 = 0 → f1Of 0 0 = 0) ∧
     get_precision_recall_f1 ([1] ++ [0]) ([0] ++ [0]) ([0] ++ [0]) "macro"
       = .ok (100 * ((precList [1] [0]).sum / ((([1] : List Nat).length : ℚ) + 1)),
              100 * ((recList [1] [0]).sum / ((([1] : List Nat).length : ℚ) + 1)),
              100 * ((f1List [1] [0] [0]).sum / ((([1] : List Nat).length : ℚ) + 1)))) :=
  ⟨⟨rfl, rfl⟩, c5_zero_conventions_macro_mean [1] [0] [0] 0 0 0 0 rfl rfl⟩

end NeMoSpec
